import Mathlib

/-
Verification of the canadianccv schema-driven CV translation engine
(src/canadianccv/ccv.py and src/canadianccv/schema.py) against its
natural-language specification.

The Python sources are shallowly embedded below.  Python dictionaries
become association lists whose update keeps the position of an existing
key (CPython dict semantics); Python exceptions become the `Except PyErr`
monad; a reference to an unbound Python name becomes an explicit
resolution step against the list of names that are actually in scope at
that program point.  Each definition carries a comment pointing at the
source lines it translates.
-/

namespace Canadianccv

/-- Python exceptions that the translated code can raise. -/
inductive PyErr where
  | nameError (n : String)
  | indexError
  | keyError (k : String)
  | typeError (msg : String)
  | schemaError (msg : String)
  | ccvError (msg : String)
deriving DecidableEq

/-- A Python value as it appears in ingested records: None, a string, a
dict (bilingual values and nested records) or a list.  Scalars other than
strings do not occur in the claims under study. -/
inductive Val where
  | none
  | str (s : String)
  | vdict (entries : List (String × Val))
  | vlist (items : List Val)

/-- A Python dict with string keys, as an insertion-ordered association list. -/
abbrev Dict := List (String × Val)

/-- `d.get(k)`-style lookup: the first binding of the key (dict keys are
unique, so the first binding is the only one). -/
def lookupVal : Dict → String → Option Val
  | [], _ => Option.none
  | (k', v) :: d, k => if k = k' then some v else lookupVal d k

/-- `d[k] = v` on a Python dict: replaces the value in place if the key
exists, appends the binding otherwise. -/
def dictSet (d : Dict) (k : String) (v : Val) : Dict :=
  if (lookupVal d k).isSome then
    d.map (fun kv => if kv.1 = k then (k, v) else kv)
  else
    d ++ [(k, v)]

/-- `del d[k]`. -/
def dictDel : Dict → String → Dict
  | [], _ => []
  | (k', v) :: d, k => if k' = k then dictDel d k else (k', v) :: dictDel d k

/-- `d[k]` as an expression: raises KeyError when absent. -/
def entriesGet (d : Dict) (k : String) : Except PyErr Val :=
  match lookupVal d k with
  | some v => pure v
  | Option.none => .error (.keyError k)

/-- Python `str(...)` restricted to the values that actually reach it in
the claims: `str` on a string is the identity, `str(None)` is `"None"`.
The `repr`-style rendering of aggregates is not modelled precisely; every
theorem below keeps aggregate values away from `str`. -/
def pyStr : Val → String
  | .str s => s
  | .none => "None"
  | .vdict _ => "<dict>"
  | .vlist _ => "<list>"

/-- Python `len(...)`: length of a string/list, number of keys of a dict,
TypeError on None. -/
def pyLen : Val → Except PyErr Nat
  | .str s => pure s.length
  | .vdict d => pure d.length
  | .vlist l => pure l.length
  | .none => .error (.typeError "object of type NoneType has no len")

/-- `value is None or value == ""` (ccv.py:229): Python `== ""` is False
for dicts and lists. -/
def isBlankVal : Val → Bool
  | .none => true
  | .str s => s == ""
  | _ => false

/-- `value is None`. -/
def isNoneVal : Val → Bool
  | .none => true
  | _ => false

/-- Python `l[i]` for a non-negative index: IndexError when out of range. -/
def listIdx {α : Type} (l : List α) (i : Nat) : Except PyErr α :=
  match l.get? i with
  | some a => pure a
  | Option.none => .error .indexError

/-- Python `l[-1]`: IndexError on an empty list. -/
def listLast {α : Type} (l : List α) : Except PyErr α :=
  match l.getLast? with
  | some a => pure a
  | Option.none => .error .indexError

/-- Resolution of a Python name against the names in scope at a program
point; an unbound name raises NameError. -/
def resolvePyName (scope : List String) (n : String) : Except PyErr String :=
  if n ∈ scope then pure n else .error (.nameError n)

/-- An XML element as built by lxml.etree: tag, attributes (in creation
order), optional text, child elements. -/
inductive Xml where
  | elem (tag : String) (attrs : List (String × String)) (text : Option String)
      (children : List Xml)

def Xml.tag : Xml → String
  | .elem t _ _ _ => t

def Xml.attrs : Xml → List (String × String)
  | .elem _ a _ _ => a

def Xml.text : Xml → Option String
  | .elem _ _ t _ => t

def Xml.children : Xml → List Xml
  | .elem _ _ _ c => c

/-- `element.get(name)`. -/
def Xml.attr (x : Xml) (k : String) : Option String :=
  x.attrs.lookup k

/-- Characters matched by `[ \t]` in the whitespace-folding regex. -/
def isBlankCh (c : Char) : Bool := c = ' ' || c = '\t'

/-- State machine equivalent to one left-to-right pass of
`re.sub("[ \t]*\n{1}[ \t]*", " ", value)` (schema.py:377): every newline,
together with the blanks immediately around it, becomes a single space.
`pending` holds blanks not yet known to precede a newline; `absorb` is
true right after a replacement, while trailing blanks of the match are
being consumed. -/
def collapseSM (pending : List Char) (absorb : Bool) : List Char → List Char
  | [] => pending.reverse
  | c :: rest =>
    if isBlankCh c then
      if absorb then collapseSM pending absorb rest
      else collapseSM (c :: pending) false rest
    else if c = '\n' then
      ' ' :: collapseSM [] true rest
    else
      pending.reverse ++ c :: collapseSM [] false rest

/-- `re.sub("[ \t]*\n{1}[ \t]*", " ", s)`. -/
def collapseNewlines (s : String) : String := ⟨collapseSM [] false s.data⟩

/-- Characters stripped by `value.strip(" \n\t")` (ccv.py:190,193). -/
def stripCh (c : Char) : Bool := c = ' ' || c = '\n' || c = '\t'

/-- `value.strip(" \n\t")`: the source calls this on ccv.py:190 and
ccv.py:193 but discards the result both times, so no stored value is ever
stripped. -/
def pyStrip (s : String) : String :=
  ⟨((s.data.dropWhile stripCh).reverse.dropWhile stripCh).reverse⟩

/-- Code-point comparison of character lists, as Python compares strings. -/
def charsLe : List Char → List Char → Bool
  | [], _ => true
  | _ :: _, [] => false
  | a :: as, b :: bs =>
    if a.toNat < b.toNat then true
    else if b.toNat < a.toNat then false
    else charsLe as bs

/-- Python `<=` on strings. -/
def strLe (a b : String) : Prop := charsLe a.data b.data = true

instance strLe.dec : DecidableRel strLe := fun a b => instDecidableEqBool _ _

/-- Python `list.sort()` (stable, ascending). -/
def pySort (l : List String) : List String := l.insertionSort strLe

/-- Split a character list on a single separator character, like
`str.split` on a one-character separator. -/
def splitChar (sep : Char) : List Char → List (List Char)
  | [] => [[]]
  | c :: rest =>
    match splitChar sep rest with
    | [] => [[c]]
    | h :: t => if c = sep then [] :: h :: t else (c :: h) :: t

/-- `s.split(sep)` for a one-character separator. -/
def splitOn1 (sep : Char) (s : String) : List String :=
  (splitChar sep s.data).map (fun cs => ⟨cs⟩)

/-- `re.sub(".*?\\((.*?)\\).*", "\\1", s)` (schema.py:523) for labels with
at most one parenthesised group, the only shape in the schema data: the
text inside the parentheses, or `s` itself when the pattern cannot match. -/
def parenType (s : String) : String :=
  match splitOn1 '(' s with
  | _ :: t :: _ =>
    match splitOn1 ')' t with
    | inner :: _ :: _ => inner
    | _ => s
  | _ => s

def dropTrailingBlanks (s : String) : String :=
  ⟨(s.data.reverse.dropWhile (· = ' ')).reverse⟩

/-- `re.sub("[ ]*\\(.*?\\)", "", s)` (schema.py:524) for labels with at
most one parenthesised group: the label with the group and the blanks
before it removed, or `s` when the pattern cannot match. -/
def cleanLabel (s : String) : String :=
  match splitOn1 '(' s with
  | pre :: t :: _ =>
    match splitOn1 ')' t with
    | _ :: post :: _ => dropTrailingBlanks pre ++ post
    | _ => s
  | _ => s

/-
Name scopes.  schema.py's module scope consists of its imports and its
top-level definitions (schema.py:1-232 and the class statements); ccv.py's
module scope consists of its imports, the star-import of schema.py's
public names, the explicit import of `_wrapper` and `_schema`, and its own
top-level definitions (ccv.py:1-44).  `Root` is defined in neither module,
and `msg` is never assigned inside `Rule.validate`.
-/

/-- Public module-level names of schema.py (what `from .schema import *`
re-exports): its imports and top-level definitions. -/
def schemaModuleScope : List String :=
  ["cached_property", "copy", "flatten", "importlib", "locale", "logging",
   "etree", "operator", "re", "TextWrapper", "SchemaError", "load_wrapper",
   "load_schema", "Schema", "XML", "Type", "ReferenceType", "LOV",
   "Reference", "Section", "Field", "Rule"]

/-- Underscore-prefixed module-level names of schema.py (visible inside
schema.py itself, not star-exported). -/
def schemaModulePrivate : List String :=
  ["_wrapper", "_schema", "_add_schema", "_get_schema", "_read_xml"]

/-- Module-level names of ccv.py: its own imports and definitions plus the
names obtained from `from .schema import *` and
`from .schema import _wrapper, _schema` (ccv.py:1-44). -/
def ccvModuleScope : List String :=
  ["namedtuple", "fnmatch", "etree", "logging", "os", "re", "toml",
   "warnings", "yaml", "SafeConstructor", "CCVError", "CCV",
   "_add_bool", "_add_logger", "_wrapper", "_schema"] ++ schemaModuleScope

/-- The Python builtins referenced anywhere in the two modules. -/
def pyBuiltins : List String :=
  ["isinstance", "len", "list", "str", "dict", "set", "int", "max", "range",
   "enumerate", "reversed", "sorted", "open", "print", "Exception", "object",
   "super", "getattr", "setattr", "type", "property", "classmethod"]

/-- Names in scope at schema.py:1123, inside `Rule.validate`: the function
parameters, the locals assigned on every path reaching that line, the
module scope of schema.py and the builtins. -/
def ruleValidateScope : List String :=
  ["self", "value", "entries", "id_", "err"]
    ++ schemaModuleScope ++ schemaModulePrivate ++ pyBuiltins

/-- A validation rule with the parameters that `Rule.parameters`
(schema.py:993-1038) extracts, one constructor per implemented
`validatorRule` id; ids the source does not implement fall through
`Rule.validate` and return None. -/
inductive Rule where
  | maxLength (n : Nat)
  | required
  | maxCount (n : Nat)
  | conditionalRequired (field : String) (value : String) (isEq : Bool)
  | mutuallyExclusive (field : String)
  | notChecked (id : Nat)
deriving DecidableEq

/-- Python `==` between a record value and the string parameter of rule 20:
true only for an equal string (a dict or list never equals a string). -/
def pyEqStr : Val → String → Bool
  | .str s, t => s == t
  | _, _ => false

/-- `Rule.validate(value, entries)` (schema.py:1079-1124).  Rule 24's
diagnostic branch formats through the name `msg` (schema.py:1123), which
is unbound at that point, so reaching it raises NameError. -/
def ruleValidate : Rule → Val → Dict → Except PyErr (Option String)
  | .maxLength n, value, _ => do
    let l ← pyLen value
    pure (if n < l then some "too long" else Option.none)
  | .required, value, _ => do
    let l ← pyLen value
    pure (if l = 0 then some "null entries not allowed" else Option.none)
  | .maxCount n, value, _ => do
    let l ← pyLen value
    pure (if n < l then some "too many entries" else Option.none)
  | .conditionalRequired fld fval isEq, value, entries => do
    let other ← entriesGet entries fld
    let test := if isEq then pyEqStr other fval else !(pyEqStr other fval)
    let l ← pyLen value
    if l = 0 && test then
      pure (some ((if isEq then "entry required if " else
        "entry required if not ") ++ fld ++ " is " ++ fval))
    else
      pure Option.none
  | .mutuallyExclusive fld, value, entries => do
    let other ← entriesGet entries fld
    let lo ← pyLen other
    if 0 < lo then do
      let lv ← pyLen value
      if 0 < lv then do
        let _ ← resolvePyName ruleValidateScope "msg"
        pure (some "unreachable: msg is unbound at schema.py:1123")
      else
        pure Option.none
    else
      pure Option.none
  | .notChecked _, _, _ => pure Option.none

/-- A controlled-vocabulary table (schema.py class LOV): its id, label and
the `(id, label)` pairs of its value children in document order. -/
structure LOVTable where
  id : String
  label : String
  values : List (String × String)
deriving DecidableEq

/-- `ReferenceType.get_value` through `values = to_dict(values_list,
"label")` (schema.py:445-460): a dict comprehension keyed by label, so a
duplicated label keeps the last entry. -/
def lovGetValue (t : LOVTable) (v : Val) : Except PyErr (String × String) :=
  match v with
  | .str s =>
    match t.values.reverse.find? (fun kv => kv.2 == s) with
    | some kv => pure kv
    | Option.none =>
      .error (.schemaError ("not a valid value for " ++ t.label))
  | _ => .error (.schemaError ("not a valid value for " ++ t.label))

/-- `LOV.to_xml(value)` (schema.py:481-488): emits
`<lov id=self.id>entry label</lov>` -- the id attribute is the id of the
vocabulary table itself, not of the looked-up entry. -/
def lovToXml (t : LOVTable) (v : Val) : Except PyErr Xml := do
  let kv ← lovGetValue t v
  pure (.elem "lov" [("id", t.id)] (some kv.2) [])

/-- The global LOV and Reference label-to-id indexes that
`LOV(label)`/`Reference(label)` consult (built by load_schema,
schema.py:174-203). -/
structure RefEnv where
  lovIds : List (String × String)
  refIds : List (String × String)

/-- A reference table as assembled by load_schema (schema.py:182-203): the
`table`/`refTable` pair for one id.  `refValues` are the
`refTable/value` entries `(id, label)`; `tableValues` the `table/value`
entries `(id, raw label)`, whose leading rows with id `"-1"` are the
classification headers; `tableFields` the `table/field` rows
`(value id, linked table/value ids)`. -/
structure RefTable where
  id : String
  label : String
  refValues : List (String × String)
  tableValues : List (String × String)
  tableFields : List (String × List String)
deriving DecidableEq

/-- The classification header rows: schema.py:516-521 walks `table/value`
and stops at the first entry whose id is not `"-1"`. -/
def tableHeaders (t : RefTable) : List String :=
  (t.tableValues.takeWhile (fun kv => kv.1 == "-1")).map (·.2)

/-- Resolving one header row (schema.py:523-532): the parenthesised type
suffix selects the LOV or the Reference index, the cleaned label is the
key; a header of neither type leaves the raw row, whose id is `"-1"`. -/
def resolveHeader (env : RefEnv) (raw : String) : Except PyErr String :=
  let t := parenType raw
  let lbl := cleanLabel raw
  if t = "List Of Values" then
    match env.lovIds.lookup lbl with
    | some i => pure i
    | Option.none => .error (.schemaError ("no LOV named " ++ lbl))
  else if t = "Reference Table" then
    match env.refIds.lookup lbl with
    | some i => pure i
    | Option.none => .error (.schemaError ("no reference table named " ++ lbl))
  else
    pure "-1"

/-- Monadic map in `Except`, by structural recursion. -/
def mapE {α β : Type} (f : α → Except PyErr β) : List α → Except PyErr (List β)
  | [] => pure []
  | a :: tl => do
    let b ← f a
    let rest ← mapE f tl
    pure (b :: rest)

/-- `table_ids` of `Reference.values_list` (schema.py:514-535): the
resolved header ids followed by the id of this table. -/
def tableIds (env : RefEnv) (t : RefTable) : Except PyErr (List String) := do
  let ids ← mapE (resolveHeader env) (tableHeaders t)
  pure (ids ++ [t.id])

/-- One entry of `Reference.values_list`: the leaf id and label together
with the `ids`/`values` lists that schema.py:560-561 attaches. -/
structure RefValue where
  id : String
  label : String
  ids : List String
  values : List String

/-- `Reference.values_list` (schema.py:498-566): joins each `table/field`
row to its `refTable/value` entry by id and to the `table/value` lookup
for the metadata labels. -/
def valuesListE (env : RefEnv) (t : RefTable) : Except PyErr (List RefValue) := do
  let ids ← tableIds env t
  mapE (fun row => do
      let labels ← mapE (fun cid =>
          match t.tableValues.lookup cid with
          | some lbl => pure lbl
          | Option.none => .error (.keyError cid)) row.2
      match t.refValues.lookup row.1 with
      | some lbl => pure (RefValue.mk row.1 lbl ids labels)
      | Option.none => .error (.keyError row.1))
    t.tableFields

/-- `ReferenceType.get_value` on a Reference table, through the
label-keyed dict of `values_list` (last duplicate wins). -/
def refGetValue (env : RefEnv) (t : RefTable) (v : Val) : Except PyErr RefValue :=
  match v with
  | .str s => do
    let vl ← valuesListE env t
    match vl.reverse.find? (fun rv => rv.label == s) with
    | some rv => pure rv
    | Option.none =>
      .error (.schemaError ("not a valid value for " ++ t.label))
  | _ => .error (.schemaError ("not a valid value for " ++ t.label))

/-- One `linkedWith` element (schema.py:580-585). -/
def mkLinkedWith (vi ti : String) : Xml :=
  .elem "linkedWith" [("label", "x"), ("value", vi), ("refOrLovId", ti)]
    Option.none []

/-- `Reference.to_xml(value)` (schema.py:569-588): one `linkedWith` per
entry of `ids`, reading `values[i]` (the metadata labels with the leaf
label appended) and `ids[i]`.  The source appends the leaf label to the
shared `value.values` list in place; since only the first `len(ids)`
entries are ever read, the element emitted is the same on every call, and
the embedding is per-call pure. -/
def refToXml (env : RefEnv) (t : RefTable) (v : Val) : Except PyErr Xml := do
  let rv ← refGetValue env t v
  let vals := rv.values ++ [rv.label]
  let links ← mapE (fun i => do
      let vi ← listIdx vals i
      let ti ← listIdx rv.ids i
      pure (mkLinkedWith vi ti))
    (List.range rv.ids.length)
  pure (.elem "refTable" [("refValueId", rv.id)] Option.none links)

/-- `Type.to_xml(value)` (schema.py:361-422) for a given language and type
label: the basic scalar shapes, the Bilingual pair, and the failure cases
for unsupported or unknown types. -/
def typeToXml (lang : String) (typeLabel : String) (v : Val) : Except PyErr Xml :=
  if typeLabel = "Year" then
    pure (.elem "value" [("format", "yyyy"), ("type", typeLabel)]
      (some (collapseStr v)) [])
  else if typeLabel = "Year Month" then
    pure (.elem "value" [("format", "yyyy/MM"), ("type", typeLabel)]
      (some (collapseStr v)) [])
  else if typeLabel = "Month Day" then
    pure (.elem "value" [("format", "MM/dd"), ("type", typeLabel)]
      (some (collapseStr v)) [])
  else if typeLabel = "Date" then
    pure (.elem "value" [("format", "yyyy-MM-dd"), ("type", typeLabel)]
      (some (collapseStr v)) [])
  else if typeLabel = "String" then
    pure (.elem "value" [("type", "String")] (some (collapseStr v)) [])
  else if typeLabel = "Integer" then
    pure (.elem "value" [("type", "Number")] (some (collapseStr v)) [])
  else if typeLabel = "Bilingual" then
    match v with
    | .str s =>
      let dct : Dict := dictSet (dictSet [] "english" (.str "")) "french" (.str "")
      bilingualElem lang (dictSet dct lang (.str s))
    | .vdict d => bilingualElem lang d
    | _ => .error (.schemaError
        "Bilingual data type value must be a string or dictionary.")
  else if typeLabel = "Datetime" ∨ typeLabel = "Pubmed" ∨
      typeLabel = "Elapsed-Time" then
    .error (.schemaError (typeLabel ++ " type is not currently supported"))
  else if typeLabel = "LOV" ∨ typeLabel = "Reference" then
    .error (.schemaError (typeLabel ++ " should not have entered here"))
  else
    .error (.schemaError (typeLabel ++ " is not a known data type"))
where
  /-- `re.sub` newline folding applied when the value is a string
  (schema.py:376-377), then `str(...)`. -/
  collapseStr : Val → String
    | .str s => collapseNewlines s
    | w => pyStr w
  /-- The `<value type="Bilingual"><english/><french/></value>` branch
  (schema.py:384-403); a missing key raises KeyError as `value_dct[...]`
  does. -/
  bilingualElem (lang : String) (d : Dict) : Except PyErr Xml := do
    let en ← entriesGet d "english"
    let fr ← entriesGet d "french"
    pure (.elem "value" [("type", "Bilingual")] Option.none
      [.elem "english" [] (some (collapseNewlines (pyStr en))) [],
       .elem "french" [] (some (collapseNewlines (pyStr fr))) []])

/-- A schema field (class Field): id, label, the label of its data type,
the lookup table it is bound to when the type is LOV or Reference
(`Field.reference`, schema.py:879-886, resolved against the global
schema), and its validation rules with parsed parameters. -/
structure FieldS where
  id : String
  label : String
  typeLabel : String
  lov : Option LOVTable
  ref : Option RefTable
  rules : List Rule
deriving DecidableEq

/-- The per-rule message collection loop of `Field.validate`
(schema.py:902-909). -/
def msgsLoop (value : Val) (entries : Dict) :
    List Rule → Except PyErr (List String)
  | [] => pure []
  | r :: tl => do
    let m ← ruleValidate r value entries
    let rest ← msgsLoop value entries tl
    pure (match m with | some s => s :: rest | Option.none => rest)

/-- `Field.validate(value, entries)` (schema.py:902-912): semicolon-joined
messages, or None when every rule passed. -/
def fieldValidate (f : FieldS) (value : Val) (entries : Dict) :
    Except PyErr (Option String) := do
  let msgs ← msgsLoop value entries f.rules
  pure (if msgs.isEmpty then Option.none
    else some (String.intercalate "; " msgs))

/-- `Field.to_xml(value)` (schema.py:915-925): a `<field>` element with
exactly one child, produced by the bound reference table for LOV and
Reference types and by `Type.to_xml` otherwise. -/
def fieldToXml (env : RefEnv) (lang : String) (f : FieldS) (v : Val) :
    Except PyErr Xml := do
  let inner ←
    if f.typeLabel = "LOV" then
      match f.lov with
      | some t => lovToXml t v
      | Option.none => .error (.schemaError ("no LOV table for " ++ f.label))
    else if f.typeLabel = "Reference" then
      match f.ref with
      | some t => refToXml env t v
      | Option.none => .error (.schemaError ("no reference table for " ++ f.label))
    else
      typeToXml lang f.typeLabel v
  pure (.elem "field" [("id", f.id), ("label", f.label)] Option.none [inner])

/-- The per-field part of `CCV.parse_xml` (ccv.py:94-118), reconstructing
one field value from a `<field>` element: `Option.none` models the
`continue` for a field without children; the Reference branch reads
`xml_children[0].getchildren()[-1]` -- the last `linkedWith`; the
Bilingual branch reads `xml_children[1]`; everything else reads the text
of the first child, with None coerced to the empty string. -/
def parseFieldValue (env : RefEnv) (f : FieldS) (fx : Xml) :
    Except PyErr (Option Val) :=
  match fx.children with
  | [] => pure Option.none
  | c0 :: _ =>
    if f.typeLabel = "Reference" then do
      let link ← listLast c0.children
      let t ← match f.ref with
        | some t => pure t
        | Option.none => .error (.schemaError ("no reference table for " ++ f.label))
      let rv ← match link.attr "value" with
        | some a => refGetValue env t (.str a)
        | Option.none =>
          .error (.schemaError ("not a valid value for " ++ t.label))
      pure (some (.str rv.label))
    else if f.typeLabel = "Bilingual" then do
      let c1 ← listIdx fx.children 1
      pure (some (.vdict (c1.children.map (fun comp =>
        (comp.tag, match comp.text with
          | some s => Val.str s
          | Option.none => Val.none)))))
    else
      pure (some (.str (c0.text.getD "")))

/-- A schema section (class Section): id, label, its fields and child
sections in document order.  `Section(label, parent_label)` lookups inside
`validate_content` resolve to the child section with that label, so the
children are embedded directly. -/
inductive Sec where
  | mk (id : String) (label : String) (fields : List FieldS) (subs : List Sec)

def Sec.id : Sec → String
  | .mk i _ _ _ => i

def Sec.label : Sec → String
  | .mk _ l _ _ => l

def Sec.fields : Sec → List FieldS
  | .mk _ _ fs _ => fs

def Sec.subs : Sec → List Sec
  | .mk _ _ _ ss => ss

/-- The keys of `section.fields` (a dict keyed by field label). -/
def fieldLabels (fs : List FieldS) : List String := fs.map (·.label)

/-- The keys of `section.sections` (a dict keyed by child section label). -/
def subLabels (s : Sec) : List String := s.subs.map (·.label)

theorem sizeOf_lt_of_mem_subs {s x : Sec} (h : x ∈ s.subs) :
    sizeOf x + 1 < sizeOf s := by
  cases s with
  | mk i l fs ss =>
    have := List.sizeOf_lt_of_mem h
    simp only [Sec.subs] at this
    simp only [Sec.mk.sizeOf_spec]
    omega

/-- `if isinstance(value, dict): ... else: value = str(value)` inside the
cleanup loop of `CCV.validate_content` (ccv.py:182-193): dict values have
None components coerced to `""` and all components passed through `str`;
any other value is passed through `str`.  The results of the two
`.strip(" \n\t")` calls on ccv.py:190 and ccv.py:193 are discarded by the
source (`str.strip` returns a new string that is never stored), so no
stripping is applied here either. -/
def cleanFieldValue : Val → Val
  | .vdict d =>
    .vdict (d.map (fun kv =>
      (kv.1, Val.str (match kv.2 with | Val.none => "" | w => pyStr w))))
  | v => .str (pyStr v)

/-- `if isinstance(value, dict): value = [value]` (ccv.py:197-198); a
non-list non-dict subsection value is wrapped so that iterating it can be
modelled uniformly (in Python, iterating e.g. a string yields items that
fail as records just as the wrapped scalar fails here). -/
def toItemList : Val → List Val
  | .vdict d => [Val.vdict d]
  | .vlist xs => xs
  | other => [other]

/-- The validation loop of `CCV.validate_content` (ccv.py:211-225): for
each schema field, read `out[entry]` (KeyError if absent), coerce a None
value to `""` in place, run `Field.validate` against the current record --
propagating any exception it raises -- and otherwise only log the
message. -/
def validateLoop : List FieldS → Dict → Except PyErr Dict
  | [], out => pure out
  | f :: tl, out =>
    match lookupVal out f.label with
    | Option.none => .error (.keyError f.label)
    | some v =>
      let v' := if isNoneVal v then Val.str "" else v
      let out' := if isNoneVal v then dictSet out f.label (.str "") else out
      do
        let _ ← fieldValidate f v' out'
        validateLoop tl out'

/-- The deletion loop of `CCV.validate_content` (ccv.py:228-230): for each
schema field label, read `out[entry]` (KeyError if absent) and delete the
binding when it is None or the empty string. -/
def deleteBlanks : List String → Dict → Except PyErr Dict
  | [], out => pure out
  | l :: tl, out =>
    match lookupVal out l with
    | Option.none => .error (.keyError l)
    | some v => deleteBlanks tl (if isBlankVal v then dictDel out l else out)

mutual

/-- `CCV.validate_content(section, entries)` (ccv.py:166-232): pre-fill
every schema field with `""`, run the cleanup loop over the raw entries,
run the validation loop, then delete blank fields. -/
def validate_content (s : Sec) (entries : Dict) : Except PyErr Dict := do
  let init : Dict := s.fields.map (fun f => (f.label, Val.str ""))
  let out1 ← cleanupLoop s entries init
  let out2 ← validateLoop s.fields out1
  deleteBlanks (fieldLabels s.fields) out2
termination_by (sizeOf s, 3, 0)

/-- The cleanup loop of `CCV.validate_content` (ccv.py:176-208), iterating
the raw entries in insertion order and storing `out[entry] = value` for
every entry, whatever branch was taken. -/
def cleanupLoop (s : Sec) (rest : List (String × Val)) (out : Dict) :
    Except PyErr Dict :=
  match rest with
  | [] => pure out
  | (k, v) :: tl => do
    let value ← cleanupEntry s k v
    cleanupLoop s tl (dictSet out k value)
termination_by (sizeOf s, 2, rest.length)

/-- The three-way branch of the cleanup loop (ccv.py:180-206): a schema
field is cleaned, a child section's entries are wrapped into a list and
validated recursively, and an unknown key is logged and left unchanged. -/
def cleanupEntry (s : Sec) (k : String) (v : Val) : Except PyErr Val :=
  if k ∈ fieldLabels s.fields then
    pure (cleanFieldValue v)
  else
    match s.subs.attach.find? (fun sub => sub.1.label == k) with
    | some sub =>
      let hs : sizeOf sub.1 + 1 < sizeOf s := sizeOf_lt_of_mem_subs sub.2
      do
        let items ← subItemsLoop sub.1 (toItemList v)
        pure (Val.vlist items)
    | Option.none => pure v
termination_by (sizeOf s, 1, 0)

/-- `for i, item in enumerate(value): value[i] = self.validate_content(
subsection, item)` (ccv.py:201-202); a non-dict item fails as a record. -/
def subItemsLoop (sub : Sec) (items : List Val) : Except PyErr (List Val) :=
  match items with
  | [] => pure []
  | it :: tl => do
    let d ← match it with
      | Val.vdict d => pure d
      | _ => Except.error (PyErr.typeError "item is not a record")
    let r ← validate_content sub d
    let rest ← subItemsLoop sub tl
    pure (Val.vdict r :: rest)
termination_by (sizeOf sub + 1, 0, items.length)

end

/-
`Section.from_entries` (schema.py:599-668).  The memoised cache of
previously resolved entry sets (schema.py:605-614 and 665-666) only
short-circuits a repeated query, so the embedding models the cold-cache
run of the algorithm itself.  The index parameter is the global
`_schema["entries"]` table built by load_schema: field or child label to
the set of ids of the sections declaring it.
-/

/-- One step of the cluster loop (schema.py:622-641) for one entry name:
intersect the name's section-id set with every existing cluster, counting
matches, and open a new cluster when nothing intersects. -/
def clStep (idx : List (String × List String))
    (st : List Nat × List (List String)) (entry : String) :
    List Nat × List (List String) :=
  match idx.lookup entry with
  | Option.none => st
  | some newSet =>
    let stepped := (st.1.zip st.2).map (fun p =>
      let inter := p.2.inter newSet
      if 0 < inter.length then (p.1 + 1, inter, true) else (p.1, p.2, false))
    let nMatches := (stepped.filter (fun q => q.2.2)).length
    let numbers := stepped.map (·.1)
    let sets := stepped.map (·.2.1)
    if nMatches = 0 then (numbers ++ [1], sets ++ [newSet])
    else (numbers, sets)

/-- The cluster state after sorting the entry names (schema.py:603) and
folding the loop from the initial `numbers = [0]`, `sets = [set()]`. -/
def clustersOf (idx : List (String × List String)) (entries : List String) :
    List Nat × List (List String) :=
  (pySort entries).foldl (clStep idx) ([0], [[]])

/-- Python `max(numbers)`: `numbers` always contains its initial `0`. -/
def maxNat (l : List Nat) : Nat := l.foldl max 0

/-- `Section.from_entries(entries, error)` (schema.py:600-668), returning
the id of the resolved section: None when nothing matched, an ambiguity
failure (error) or None (permissive) when the winning cluster holds more
than one section, and a partial-match failure in strict mode when more
than one cluster was formed. -/
def from_entries (idx : List (String × List String)) (entries : List String)
    (error : Bool) : Except String (Option String) :=
  let st := clustersOf idx entries
  let m := maxNat st.1
  if m = 0 then pure Option.none
  else
    let index := st.1.findIdx (fun n => n = m)
    let winner := st.2.getD index []
    if 1 < winner.length then
      if error then .error "Multiple sections matched with the same entries"
      else pure Option.none
    else
      match winner.head? with
      | Option.none => .error "list index out of range"
      | some secId =>
        if error ∧ 2 < st.1.length then
          .error "section matched with only part of the entries"
        else
          pure (some secId)

/-
Whole-document export (claim C9).  `CCV.get_content` (ccv.py:283-298)
begins with `isinstance(schema, Root)`; `CCV.to_xml` (ccv.py:510-519) and
`CCV.to_yaml` (ccv.py:530-541), when called without section arguments,
begin with `schema = Root()`.  Each of these first evaluates the name
`Root` in ccv.py's scope; everything after that name lookup is
unreachable when the lookup raises, so the embeddings end there.
-/

/-- `CCV.get_content(schema)` up to its first expression,
`isinstance(schema, Root)` (ccv.py:285). -/
def ccvGetContent (schemaArg : Sec) : Except PyErr Unit := do
  let _ ← resolvePyName (ccvModuleScope ++ pyBuiltins) "Root"
  pure ()

/-- `CCV.to_xml(path)` with no section arguments up to its first
statement of the no-argument branch, `schema = Root()` (ccv.py:513-514). -/
def ccvToXmlWholeDoc (path : String) : Except PyErr Unit := do
  let _ ← resolvePyName (ccvModuleScope ++ pyBuiltins) "Root"
  pure ()

/-- `CCV.to_yaml(path)` with no section arguments up to its first
statement of the no-argument branch, `schema = Root()` (ccv.py:538-539). -/
def ccvToYamlWholeDoc (path : String) : Except PyErr Unit := do
  let _ ← resolvePyName (ccvModuleScope ++ pyBuiltins) "Root"
  pure ()

/-
Association-list lemmas for the Python-dict embedding.
-/

theorem lookupVal_cons (k : String) (v : Val) (d : Dict) (l : String) :
    lookupVal ((k, v) :: d) l = if l = k then some v else lookupVal d l := rfl

theorem lookup_setMap (d : Dict) (k l : String) (v : Val) :
    lookupVal (d.map (fun kv => if kv.1 = k then (k, v) else kv)) l =
      if l = k then (lookupVal d k).map (fun _ => v) else lookupVal d l := by
  induction d with
  | nil => by_cases h : l = k <;> simp [lookupVal, h]
  | cons hd tl ih =>
    obtain ⟨k', v'⟩ := hd
    rw [List.map_cons]
    by_cases hk : k' = k
    · rw [show (if ((k', v') : String × Val).1 = k then (k, v) else (k', v'))
          = (k, v) from if_pos hk]
      simp only [lookupVal_cons]
      rw [ih, if_pos (hk.symm : k = k')]
      by_cases hl : l = k
      · simp only [if_pos hl]
        rfl
      · have hl' : ¬ l = k' := fun h => hl (h.trans hk)
        simp only [if_neg hl, if_neg hl']
    · rw [show (if ((k', v') : String × Val).1 = k then (k, v) else (k', v'))
          = (k', v') from if_neg hk]
      simp only [lookupVal_cons]
      rw [ih, if_neg (fun (h : k = k') => hk h.symm)]
      by_cases hl : l = k
      · have hl' : ¬ l = k' := fun h => hk (h.symm.trans hl)
        simp only [if_neg hl', if_pos hl]
      · by_cases h4 : l = k'
        · simp only [if_pos h4, if_neg hl]
        · simp only [if_neg h4, if_neg hl]

theorem lookupVal_dictSet (d : Dict) (k : String) (v : Val) (l : String) :
    lookupVal (dictSet d k v) l = if l = k then some v else lookupVal d l := by
  unfold dictSet
  by_cases hpres : (lookupVal d k).isSome
  · rw [if_pos hpres, lookup_setMap]
    by_cases hl : l = k
    · obtain ⟨b, hb⟩ := Option.isSome_iff_exists.mp hpres
      simp [hl, hb]
    · simp [hl]
  · rw [if_neg hpres]
    induction d with
    | nil =>
      by_cases hl : l = k <;> simp [lookupVal, hl]
    | cons hd tl ih =>
      obtain ⟨k', v'⟩ := hd
      rw [List.cons_append]
      simp only [lookupVal_cons]
      by_cases h2 : l = k'
      · have hlk : ¬ l = k := by
          intro h
          apply hpres
          rw [lookupVal_cons, if_pos (h.symm.trans h2 : k = k')]
          rfl
        rw [if_pos h2, if_neg hlk, if_pos h2]
      · have hpres' : ¬ (lookupVal tl k).isSome = true := by
          intro hs
          apply hpres
          by_cases h3 : k = k'
          · rw [lookupVal_cons, if_pos h3]
            rfl
          · rw [lookupVal_cons, if_neg h3]
            exact hs
        rw [if_neg h2, ih hpres', if_neg h2]

theorem lookupVal_dictDel (d : Dict) (k l : String) :
    lookupVal (dictDel d k) l = if l = k then Option.none else lookupVal d l := by
  induction d with
  | nil => by_cases h : l = k <;> simp [dictDel, lookupVal, h]
  | cons hd tl ih =>
    obtain ⟨k', v'⟩ := hd
    by_cases hk : k' = k
    · rw [show dictDel ((k', v') :: tl) k = dictDel tl k from by
        simp [dictDel, hk], ih]
      simp only [lookupVal_cons]
      split_ifs <;> simp_all
    · rw [show dictDel ((k', v') :: tl) k = (k', v') :: dictDel tl k from by
        simp [dictDel, hk]]
      simp only [lookupVal_cons]
      rw [ih]
      split_ifs <;> simp_all

theorem mem_of_lookupVal {d : Dict} {l : String} {v : Val}
    (h : lookupVal d l = some v) : (l, v) ∈ d := by
  induction d with
  | nil => simp [lookupVal] at h
  | cons hd tl ih =>
    obtain ⟨k', v'⟩ := hd
    by_cases h2 : l = k'
    · have hv : v' = v := by simpa [lookupVal, h2] using h
      rw [← hv, ← h2]
      exact List.mem_cons_self _ _
    · simp only [lookupVal, if_neg h2] at h
      exact List.mem_cons_of_mem _ (ih h)

/-- The first binding of a key in a raw record, in insertion order. -/
def firstKey : List (String × Val) → String → Option (String × Val)
  | [], _ => Option.none
  | kv :: tl, l => if kv.1 = l then some kv else firstKey tl l

theorem firstKey_eq_none_of_not_mem {e : List (String × Val)} {k : String}
    (h : k ∉ e.map (·.1)) : firstKey e k = Option.none := by
  induction e with
  | nil => rfl
  | cons hd tl ih =>
    simp only [List.map_cons, List.mem_cons, not_or] at h
    have h1 : ¬ hd.1 = k := fun hh => h.1 hh.symm
    simp only [firstKey, if_neg h1]
    exact ih h.2

theorem firstKey_of_mem_nodup {e : List (String × Val)} {k : String} {v : Val}
    (hnd : (e.map (·.1)).Nodup) (hmem : (k, v) ∈ e) :
    firstKey e k = some (k, v) := by
  induction e with
  | nil => simp at hmem
  | cons hd tl ih =>
    obtain ⟨k', v'⟩ := hd
    simp only [List.map_cons, List.nodup_cons] at hnd
    rcases List.mem_cons.mp hmem with heq | htl
    · injection heq with e1 e2
      simp [firstKey, e1, e2]
    · have hk : ¬ k' = k := by
        intro h
        rw [h] at hnd
        exact hnd.1 (List.mem_map.mpr ⟨(k, v), htl, rfl⟩)
      simp only [firstKey, if_neg hk]
      exact ih hnd.2 htl

theorem lookupVal_foldl_dictSet (g : String × Val → Val)
    (e : List (String × Val)) (out : Dict) (l : String)
    (hnd : (e.map (·.1)).Nodup) :
    lookupVal (e.foldl (fun o kv => dictSet o kv.1 (g kv)) out) l =
      match firstKey e l with
      | some kv => some (g kv)
      | Option.none => lookupVal out l := by
  induction e generalizing out with
  | nil => simp [firstKey]
  | cons hd tl ih =>
    obtain ⟨k, v⟩ := hd
    simp only [List.map_cons, List.nodup_cons] at hnd
    simp only [List.foldl_cons]
    rw [ih _ hnd.2]
    by_cases hl : k = l
    · rw [firstKey_eq_none_of_not_mem (hl ▸ hnd.1)]
      rw [show firstKey ((k, v) :: tl) l = some (k, v) from if_pos hl]
      show lookupVal (dictSet out k (g (k, v))) l = some (g (k, v))
      rw [lookupVal_dictSet, if_pos hl.symm]
    · cases hfind : firstKey tl l with
      | none =>
        rw [show firstKey ((k, v) :: tl) l = firstKey tl l from if_neg hl,
          hfind]
        show lookupVal (dictSet out k (g (k, v))) l = lookupVal out l
        rw [lookupVal_dictSet, if_neg (fun h => hl h.symm)]
      | some kv =>
        rw [show firstKey ((k, v) :: tl) l = firstKey tl l from if_neg hl,
          hfind]

/-
Characterisation of `validate_content` on flat records.
-/

theorem exceptBind_ok {α β : Type} (a : α) (f : α → Except PyErr β) :
    (Except.ok a : Except PyErr α) >>= f = f a := rfl

theorem exceptBind_pure {α β : Type} (a : α) (f : α → Except PyErr β) :
    (pure a : Except PyErr α) >>= f = f a := rfl

/-- `value` is a Python string. -/
def isStrVal : Val → Bool
  | .str _ => true
  | _ => false

/-- Rules whose check neither consults sibling fields nor can raise:
every implemented rule except the two cross-field kinds. -/
def safeRule : Rule → Bool
  | .conditionalRequired _ _ _ => false
  | .mutuallyExclusive _ => false
  | _ => true

/-- The cleanup loop's effect on one entry of a flat record: schema
fields are cleaned, anything else is kept as-is. -/
def cleanEntrySpec (s : Sec) (kv : String × Val) : Val :=
  if kv.1 ∈ fieldLabels s.fields then cleanFieldValue kv.2 else kv.2

theorem cleanupLoop_nil (s : Sec) (out : Dict) :
    cleanupLoop s [] out = pure out := by
  rw [cleanupLoop]

theorem cleanupLoop_cons (s : Sec) (k : String) (v : Val)
    (tl : List (String × Val)) (out : Dict) :
    cleanupLoop s ((k, v) :: tl) out =
      (do
        let value ← cleanupEntry s k v
        cleanupLoop s tl (dictSet out k value)) := by
  rw [cleanupLoop]

theorem cleanupEntry_field (s : Sec) (k : String) (v : Val)
    (h : k ∈ fieldLabels s.fields) :
    cleanupEntry s k v = pure (cleanFieldValue v) := by
  rw [cleanupEntry, if_pos h]

theorem cleanupEntry_unknown (s : Sec) (k : String) (v : Val)
    (h1 : k ∉ fieldLabels s.fields) (h2 : k ∉ subLabels s) :
    cleanupEntry s k v = pure v := by
  rw [cleanupEntry, if_neg h1]
  have hnone : s.subs.attach.find? (fun sub => sub.1.label == k)
      = Option.none := by
    rw [List.find?_eq_none]
    intro x hx
    simp only [beq_iff_eq]
    intro hlab
    exact h2 (List.mem_map.mpr ⟨x.1, x.2, hlab⟩)
  rw [hnone]

theorem validate_content_eq (s : Sec) (entries : Dict) :
    validate_content s entries =
      (do
        let out1 ← cleanupLoop s entries
          (s.fields.map (fun f => (f.label, Val.str "")))
        let out2 ← validateLoop s.fields out1
        deleteBlanks (fieldLabels s.fields) out2) := by
  rw [validate_content]

theorem cleanupLoop_flat (s : Sec) (e : List (String × Val)) (out : Dict)
    (h : ∀ kv ∈ e, kv.1 ∈ fieldLabels s.fields ∨ kv.1 ∉ subLabels s) :
    cleanupLoop s e out =
      .ok (e.foldl (fun o kv => dictSet o kv.1 (cleanEntrySpec s kv)) out) := by
  induction e generalizing out with
  | nil => rw [cleanupLoop_nil]; rfl
  | cons hd tl ih =>
    obtain ⟨k, v⟩ := hd
    rw [cleanupLoop_cons, List.foldl_cons]
    by_cases hf : k ∈ fieldLabels s.fields
    · rw [cleanupEntry_field s k v hf, exceptBind_pure,
        show cleanEntrySpec s (k, v) = cleanFieldValue v from if_pos hf]
      exact ih _ (fun kv hkv => h kv (List.mem_cons_of_mem _ hkv))
    · have hu : k ∉ subLabels s :=
        (h (k, v) (List.mem_cons_self _ _)).resolve_left hf
      rw [cleanupEntry_unknown s k v hf hu, exceptBind_pure,
        show cleanEntrySpec s (k, v) = v from if_neg hf]
      exact ih _ (fun kv hkv => h kv (List.mem_cons_of_mem _ hkv))

theorem ruleValidate_safe_ok (r : Rule) (hr : safeRule r = true) (t : String)
    (entries : Dict) : ∃ o, ruleValidate r (Val.str t) entries = .ok o := by
  cases r with
  | maxLength n => exact ⟨_, rfl⟩
  | required => exact ⟨_, rfl⟩
  | maxCount n => exact ⟨_, rfl⟩
  | conditionalRequired a b c => simp [safeRule] at hr
  | mutuallyExclusive a => simp [safeRule] at hr
  | notChecked i => exact ⟨_, rfl⟩

theorem msgsLoop_safe_ok (rules : List Rule)
    (h : ∀ r ∈ rules, safeRule r = true) (t : String) (entries : Dict) :
    ∃ msgs, msgsLoop (Val.str t) entries rules = .ok msgs := by
  induction rules with
  | nil => exact ⟨[], rfl⟩
  | cons r tl ih =>
    obtain ⟨o, ho⟩ := ruleValidate_safe_ok r (h r (List.mem_cons_self _ _)) t entries
    obtain ⟨msgs, hm⟩ := ih (fun r hr => h r (List.mem_cons_of_mem _ hr))
    refine ⟨(match o with | some m => m :: msgs | Option.none => msgs), ?_⟩
    simp only [msgsLoop, ho, hm, exceptBind_ok]
    cases o <;> rfl

theorem fieldValidate_str_ok (f : FieldS)
    (h : ∀ r ∈ f.rules, safeRule r = true) (t : String) (entries : Dict) :
    ∃ o, fieldValidate f (Val.str t) entries = .ok o := by
  obtain ⟨msgs, hm⟩ := msgsLoop_safe_ok f.rules h t entries
  refine ⟨(if msgs.isEmpty then Option.none
    else some (String.intercalate "; " msgs)), ?_⟩
  simp only [fieldValidate, hm, exceptBind_ok]
  rfl

theorem validateLoop_ok : ∀ (fields : List FieldS) (out : Dict),
    (∀ f ∈ fields, ∃ t, lookupVal out f.label = some (Val.str t)) →
    (∀ f ∈ fields, ∀ r ∈ f.rules, safeRule r = true) →
    validateLoop fields out = .ok out := by
  intro fields
  induction fields with
  | nil => intro out _ _; rfl
  | cons f tl ih =>
    intro out hstr hsafe
    obtain ⟨t, ht⟩ := hstr f (List.mem_cons_self _ _)
    obtain ⟨o, ho⟩ := fieldValidate_str_ok f
      (hsafe f (List.mem_cons_self _ _)) t out
    simp only [validateLoop, ht]
    show (do
      let _ ← fieldValidate f (Val.str t) out
      validateLoop tl out) = .ok out
    rw [ho, exceptBind_ok]
    exact ih out (fun g hg => hstr g (List.mem_cons_of_mem _ hg))
      (fun g hg => hsafe g (List.mem_cons_of_mem _ hg))

theorem deleteBlanks_spec : ∀ (labels : List String) (out : Dict),
    labels.Nodup → (∀ l ∈ labels, (lookupVal out l).isSome) →
    ∃ out2, deleteBlanks labels out = .ok out2 ∧
      ∀ l', lookupVal out2 l' =
        match lookupVal out l' with
        | some v =>
          if l' ∈ labels ∧ isBlankVal v = true then Option.none else some v
        | Option.none => Option.none := by
  intro labels
  induction labels with
  | nil =>
    intro out _ _
    refine ⟨out, rfl, fun l' => ?_⟩
    cases h : lookupVal out l' <;> simp [h]
  | cons l tl ih =>
    intro out hnd hpres
    obtain ⟨v, hv⟩ := Option.isSome_iff_exists.mp
      (hpres l (List.mem_cons_self _ _))
    simp only [List.nodup_cons] at hnd
    have hstep : deleteBlanks (l :: tl) out =
        deleteBlanks tl (if isBlankVal v then dictDel out l else out) := by
      simp only [deleteBlanks, hv]
    have hlook' : ∀ l'', lookupVal (if isBlankVal v then dictDel out l else out) l''
        = if l'' = l ∧ isBlankVal v = true then Option.none
          else lookupVal out l'' := by
      intro l''
      by_cases hb : isBlankVal v = true
      · rw [if_pos hb, lookupVal_dictDel]
        by_cases hl2 : l'' = l
        · rw [if_pos hl2, if_pos ⟨hl2, hb⟩]
        · rw [if_neg hl2, if_neg (fun hc => hl2 hc.1)]
      · rw [if_neg hb, if_neg (fun hc => hb hc.2)]
    have hpres' : ∀ x ∈ tl, (lookupVal
        (if isBlankVal v then dictDel out l else out) x).isSome := by
      intro x hx
      rw [hlook' x, if_neg (fun (hc : x = l ∧ isBlankVal v = true) =>
        hnd.1 (hc.1 ▸ hx))]
      exact hpres x (List.mem_cons_of_mem _ hx)
    obtain ⟨out2, hdel, hformula⟩ := ih _ hnd.2 hpres'
    refine ⟨out2, by rw [hstep]; exact hdel, ?_⟩
    intro l'
    rw [hformula l', hlook' l']
    by_cases hl : l' = l
    · by_cases hb : isBlankVal v = true
      · rw [if_pos (⟨hl, hb⟩ : l' = l ∧ isBlankVal v = true),
          show lookupVal out l' = some v from hl.symm ▸ hv]
        show Option.none =
          if l' ∈ l :: tl ∧ isBlankVal v = true then Option.none else some v
        rw [if_pos (⟨List.mem_cons.mpr (Or.inl hl), hb⟩ :
          l' ∈ l :: tl ∧ isBlankVal v = true)]
      · rw [if_neg (fun (hc : l' = l ∧ isBlankVal v = true) => hb hc.2),
          show lookupVal out l' = some v from hl.symm ▸ hv]
        show (if l' ∈ tl ∧ isBlankVal v = true then Option.none else some v) =
          if l' ∈ l :: tl ∧ isBlankVal v = true then Option.none else some v
        rw [if_neg (fun (hc : l' ∈ tl ∧ isBlankVal v = true) => hb hc.2),
          if_neg (fun (hc : l' ∈ l :: tl ∧ isBlankVal v = true) => hb hc.2)]
    · rw [if_neg (fun (hc : l' = l ∧ isBlankVal v = true) => hl hc.1)]
      cases hw : lookupVal out l' with
      | none => rfl
      | some w =>
        have hiff : (l' ∈ tl ∧ isBlankVal w = true) ↔
            (l' ∈ l :: tl ∧ isBlankVal w = true) := by
          constructor
          · exact fun hc => ⟨List.mem_cons_of_mem _ hc.1, hc.2⟩
          · exact fun hc => ⟨(List.mem_cons.mp hc.1).resolve_left hl, hc.2⟩
        show (if l' ∈ tl ∧ isBlankVal w = true then Option.none else some w) =
          if l' ∈ l :: tl ∧ isBlankVal w = true then Option.none else some w
        exact if_congr hiff rfl rfl

theorem firstKey_some {e : List (String × Val)} {l : String}
    {kv : String × Val} (h : firstKey e l = some kv) :
    kv.1 = l ∧ kv ∈ e := by
  induction e with
  | nil => simp [firstKey] at h
  | cons hd tl ih =>
    by_cases hh : hd.1 = l
    · rw [show firstKey (hd :: tl) l = some hd from if_pos hh] at h
      injection h with h
      exact ⟨h ▸ hh, h ▸ List.mem_cons_self _ _⟩
    · rw [show firstKey (hd :: tl) l = firstKey tl l from if_neg hh] at h
      obtain ⟨h1, h2⟩ := ih h
      exact ⟨h1, List.mem_cons_of_mem _ h2⟩

theorem lookupVal_initOut (fs : List FieldS) (l : String) :
    lookupVal (fs.map (fun f => (f.label, Val.str ""))) l =
      if l ∈ fieldLabels fs then some (Val.str "") else Option.none := by
  induction fs with
  | nil => simp [lookupVal, fieldLabels]
  | cons f tl ih =>
    rw [List.map_cons, lookupVal_cons, ih]
    by_cases h1 : l = f.label
    · rw [if_pos h1, if_pos (by
        exact List.mem_map.mpr ⟨f, List.mem_cons_self _ _, h1.symm⟩)]
    · by_cases h2 : l ∈ fieldLabels tl
      · rw [if_neg h1, if_pos h2, if_pos (by
          obtain ⟨g, hg, hgl⟩ := List.mem_map.mp h2
          exact List.mem_map.mpr ⟨g, List.mem_cons_of_mem _ hg, hgl⟩)]
      · rw [if_neg h1, if_neg h2, if_neg (by
          intro hc
          obtain ⟨g, hg, hgl⟩ := List.mem_map.mp hc
          rcases List.mem_cons.mp hg with heq | htl
          · exact h1 (heq ▸ hgl).symm
          · exact h2 (List.mem_map.mpr ⟨g, htl, hgl⟩))]

theorem validate_content_flat (s : Sec) (e : List (String × Val))
    (hmix : ∀ kv ∈ e, (kv.1 ∈ fieldLabels s.fields ∧ isStrVal kv.2 = true) ∨
      (kv.1 ∉ fieldLabels s.fields ∧ kv.1 ∉ subLabels s))
    (hek : (e.map (·.1)).Nodup)
    (hfl : (fieldLabels s.fields).Nodup)
    (hsafe : ∀ f ∈ s.fields, ∀ r ∈ f.rules, safeRule r = true) :
    ∃ out, validate_content s e = .ok out ∧
      ∀ l', lookupVal out l' =
        match firstKey e l' with
        | some kv =>
          if l' ∈ fieldLabels s.fields ∧ isBlankVal (cleanEntrySpec s kv) = true
          then Option.none else some (cleanEntrySpec s kv)
        | Option.none => Option.none := by
  have hcl := cleanupLoop_flat s e
    (s.fields.map (fun f => (f.label, Val.str "")))
    (fun kv hkv => (hmix kv hkv).imp And.left And.right)
  have hout1 : ∀ l', lookupVal
      (e.foldl (fun o kv => dictSet o kv.1 (cleanEntrySpec s kv))
        (s.fields.map (fun f => (f.label, Val.str "")))) l' =
      match firstKey e l' with
      | some kv => some (cleanEntrySpec s kv)
      | Option.none =>
        if l' ∈ fieldLabels s.fields then some (Val.str "") else Option.none := by
    intro l'
    rw [lookupVal_foldl_dictSet _ e _ l' hek, lookupVal_initOut]
  have hstr : ∀ f ∈ s.fields, ∃ t, lookupVal
      (e.foldl (fun o kv => dictSet o kv.1 (cleanEntrySpec s kv))
        (s.fields.map (fun f => (f.label, Val.str "")))) f.label
      = some (Val.str t) := by
    intro f hf
    rw [hout1 f.label]
    have hfl2 : f.label ∈ fieldLabels s.fields :=
      List.mem_map.mpr ⟨f, hf, rfl⟩
    cases hfk : firstKey e f.label with
    | none => exact ⟨"", by rw [if_pos hfl2]⟩
    | some kv =>
      obtain ⟨hkey, hkmem⟩ := firstKey_some hfk
      rcases hmix kv hkmem with ⟨hinf, hstrv⟩ | ⟨hnf, _⟩
      · cases kv with
        | mk k1 k2 =>
          cases k2 with
          | str t =>
            refine ⟨t, ?_⟩
            show some (cleanEntrySpec s (k1, Val.str t)) = some (Val.str t)
            rw [show cleanEntrySpec s (k1, Val.str t)
                = cleanFieldValue (Val.str t) from if_pos hinf]
            rfl
          | none => simp [isStrVal] at hstrv
          | vdict d => simp [isStrVal] at hstrv
          | vlist xs => simp [isStrVal] at hstrv
      · exact absurd (hkey ▸ hfl2) hnf
  have hvl := validateLoop_ok s.fields _ hstr hsafe
  have hpres : ∀ l ∈ fieldLabels s.fields, (lookupVal
      (e.foldl (fun o kv => dictSet o kv.1 (cleanEntrySpec s kv))
        (s.fields.map (fun f => (f.label, Val.str "")))) l).isSome := by
    intro l hl
    obtain ⟨f, hf, hfl3⟩ := List.mem_map.mp hl
    obtain ⟨t, ht⟩ := hstr f hf
    rw [hfl3] at ht
    rw [ht]
    rfl
  obtain ⟨out2, hdel, hformula⟩ :=
    deleteBlanks_spec (fieldLabels s.fields) _ hfl hpres
  refine ⟨out2, ?_, ?_⟩
  · rw [validate_content_eq, hcl, exceptBind_ok, hvl, exceptBind_ok, hdel]
  · intro l'
    rw [hformula l', hout1 l']
    cases hfk : firstKey e l' with
    | some kv => rfl
    | none =>
      by_cases hfl2 : l' ∈ fieldLabels s.fields
      · rw [if_pos hfl2]
        show (if l' ∈ fieldLabels s.fields ∧
            isBlankVal (Val.str "") = true then Option.none
            else some (Val.str "")) = Option.none
        rw [if_pos (⟨hfl2, rfl⟩ :
          l' ∈ fieldLabels s.fields ∧ isBlankVal (Val.str "") = true)]
      · rw [if_neg hfl2]

/-
Lemmas about `mapE` and the reference-chain construction.
-/

theorem mapE_ok_length {α β : Type} {f : α → Except PyErr β} :
    ∀ {l : List α} {l' : List β}, mapE f l = .ok l' → l'.length = l.length := by
  intro l
  induction l with
  | nil =>
    intro l' h
    cases h
    rfl
  | cons a tl ih =>
    intro l' h
    cases hfa : f a with
    | error e => rw [mapE, hfa] at h; exact absurd h (by simp [Bind.bind, Except.bind])
    | ok b =>
      cases hrest : mapE f tl with
      | error e =>
        rw [mapE, hfa, exceptBind_ok, hrest] at h
        exact absurd h (by simp [Bind.bind, Except.bind])
      | ok rest =>
        rw [mapE, hfa, exceptBind_ok, hrest, exceptBind_ok] at h
        cases h
        simp [ih hrest]

theorem mapE_ok_mem {α β : Type} {f : α → Except PyErr β} :
    ∀ {l : List α} {l' : List β}, mapE f l = .ok l' →
      ∀ b ∈ l', ∃ a ∈ l, f a = .ok b := by
  intro l
  induction l with
  | nil =>
    intro l' h
    cases h
    intro b hb
    simp at hb
  | cons a tl ih =>
    intro l' h
    cases hfa : f a with
    | error e => rw [mapE, hfa] at h; exact absurd h (by simp [Bind.bind, Except.bind])
    | ok b0 =>
      cases hrest : mapE f tl with
      | error e =>
        rw [mapE, hfa, exceptBind_ok, hrest] at h
        exact absurd h (by simp [Bind.bind, Except.bind])
      | ok rest =>
        rw [mapE, hfa, exceptBind_ok, hrest, exceptBind_ok] at h
        cases h
        intro b hb
        rcases List.mem_cons.mp hb with heq | htl
        · exact ⟨a, List.mem_cons_self _ _, heq ▸ hfa⟩
        · obtain ⟨a2, ha2, hfa2⟩ := ih hrest b htl
          exact ⟨a2, List.mem_cons_of_mem _ ha2, hfa2⟩

theorem mapE_map {α γ β : Type} (f : γ → Except PyErr β) (g : α → γ)
    (l : List α) : mapE f (l.map g) = mapE (fun a => f (g a)) l := by
  induction l with
  | nil => rfl
  | cons a tl ih => simp only [List.map_cons, mapE, ih]

theorem mapE_idx_zip : ∀ (ids vals : List String),
    vals.length = ids.length →
    mapE (fun i => do
        let vi ← listIdx vals i
        let ti ← listIdx ids i
        pure (mkLinkedWith vi ti)) (List.range ids.length)
      = .ok ((vals.zip ids).map (fun p => mkLinkedWith p.1 p.2)) := by
  intro ids
  induction ids with
  | nil =>
    intro vals h
    cases vals with
    | nil => rfl
    | cons v vtl => simp at h
  | cons t0 ttl ih =>
    intro vals h
    cases vals with
    | nil => simp at h
    | cons v0 vtl =>
      have h' : vtl.length = ttl.length := by simpa using h
      show mapE _ (List.range (ttl.length + 1)) = _
      rw [List.range_succ_eq_map, mapE, mapE_map]
      show (do
          let b ← pure (mkLinkedWith v0 t0)
          let rest ← mapE (fun i => do
            let vi ← listIdx vtl i
            let ti ← listIdx ttl i
            pure (mkLinkedWith vi ti)) (List.range ttl.length)
          pure (b :: rest)) = _
      rw [exceptBind_pure, ih vtl h', exceptBind_ok]
      rfl

/-
Concrete instances.  The schema content (sections, fields, vocabulary and
reference tables) is exogenous data loaded from the packaged cv.xml,
cv-lov.xml and cv-ref-table.xml; the instances below are small
well-formed tables of the same shape, with ids echoing the real ones
where the tests record them.
-/

def courseCodeField : FieldS :=
  ⟨"fld-course-code", "Course Code", "String", Option.none, Option.none,
    [Rule.maxLength 3]⟩

def courseTitleField : FieldS :=
  ⟨"fld-course-title", "Course Title", "String", Option.none, Option.none, []⟩

def coursesTaughtSec : Sec :=
  .mk "9dc74140d0ff4b26a2d4a559bc9b5a2b" "Courses Taught"
    [courseCodeField, courseTitleField] []

def courseRec : Dict :=
  [("Course Code", Val.str "CS101X"), ("Course Title", Val.str "Intro")]

def courseTopicField : FieldS :=
  ⟨"fld-course-topic", "Course Topic", "String", Option.none, Option.none, []⟩

def topicSec : Sec := .mk "sec-topic" "Teaching" [courseTopicField] []

def rawTopic : String := "  Testing \n CCV  "

def presTitleField : FieldS :=
  ⟨"fld-pres-title", "Presentation Title", "String", Option.none, Option.none, []⟩

def presSec : Sec := .mk "sec-pres" "Presentations" [presTitleField] []

def presRec : Dict :=
  [("Presentation Title", Val.str "Talk"),
   ("section override", Val.str "Presentations")]

def presIdx : List (String × List String) := [("Presentation Title", ["sec-pres"])]

def tiedIdx : List (String × List String) :=
  [("Course Code", ["sec-a", "sec-b"]), ("Course Title", ["sec-a", "sec-b"])]

def courseLevelLOV : LOVTable :=
  ⟨"00000000000000000000000000000041", "Course Level",
    [("00000000000000000000000100000400", "Undergraduate"),
     ("00000000000000000000000100000401", "Graduate")]⟩

def c10aField : FieldS :=
  ⟨"fld-fund-title", "Funding Title", "String", Option.none, Option.none,
    [Rule.mutuallyExclusive "Funding Number"]⟩

def c10bField : FieldS :=
  ⟨"fld-fund-number", "Funding Number", "String", Option.none, Option.none, []⟩

def fundingSec : Sec := .mk "sec-fund" "Funding" [c10aField, c10bField] []

def fundingRec : Dict :=
  [("Funding Title", Val.str "Grant"), ("Funding Number", Val.str "123")]

/-
Claim theorems.
-/

/-- C2 counterexample: ingesting a record whose "Course Code" violates its
max-length rule (rule kind 8) does not abort, but the resulting Record
still CONTAINS the offending field with its over-long value -- the claim
that the field is omitted is false.  `validate_content` only logs the
"too long" diagnostic (ccv.py:222-225) and deletes nothing but blank
values (ccv.py:228-230). -/
theorem maxlength_violation_field_retained :
    validate_content coursesTaughtSec courseRec
        = .ok [("Course Code", Val.str "CS101X"),
               ("Course Title", Val.str "Intro")]
      ∧ ruleValidate (Rule.maxLength 3) (Val.str "CS101X") []
        = .ok (some "too long") := by
  refine ⟨?_, rfl⟩
  rw [validate_content_eq, cleanupLoop_flat _ _ _ (by decide), exceptBind_ok]
  rfl

/-- C2 (amended): for every section and raw record in which one field's
string value violates a max-length rule, validated ingestion does not
abort, and the stored Record RETAINS the offending field together with
every other non-blank field; only blank fields are dropped. -/
theorem validation_failsoft_retains_offending_field
    (s : Sec) (e : List (String × Val)) (off : FieldS) (n : Nat)
    (offVal : String)
    (hmix : ∀ kv ∈ e, (kv.1 ∈ fieldLabels s.fields ∧ isStrVal kv.2 = true) ∨
      (kv.1 ∉ fieldLabels s.fields ∧ kv.1 ∉ subLabels s))
    (hek : (e.map (·.1)).Nodup)
    (hfl : (fieldLabels s.fields).Nodup)
    (hsafe : ∀ f ∈ s.fields, ∀ r ∈ f.rules, safeRule r = true)
    (hoff : off ∈ s.fields)
    (hrule : Rule.maxLength n ∈ off.rules)
    (hoffe : (off.label, Val.str offVal) ∈ e)
    (hlong : n < offVal.length) :
    ∃ out, validate_content s e = .ok out
      ∧ ruleValidate (Rule.maxLength n) (Val.str offVal) e
          = .ok (some "too long")
      ∧ (off.label, Val.str offVal) ∈ out
      ∧ ∀ kv ∈ e, (∃ t, kv.2 = Val.str t ∧ t ≠ "") → kv ∈ out := by
  obtain ⟨out, hok, hlook⟩ := validate_content_flat s e hmix hek hfl hsafe
  have hoffne : offVal ≠ "" := by
    intro h
    rw [h] at hlong
    simp at hlong
  refine ⟨out, hok, ?_, ?_, ?_⟩
  · show (do
        let l ← pyLen (Val.str offVal)
        pure (if n < l then some "too long" else Option.none)
        : Except PyErr (Option String)) = .ok (some "too long")
    rw [show pyLen (Val.str offVal) = pure offVal.length from rfl,
      exceptBind_pure, if_pos hlong]
    rfl
  · have hfk := firstKey_of_mem_nodup hek hoffe
    have hinf : off.label ∈ fieldLabels s.fields :=
      List.mem_map.mpr ⟨off, hoff, rfl⟩
    have h1 := hlook off.label
    rw [hfk] at h1
    have hclean : cleanEntrySpec s (off.label, Val.str offVal)
        = Val.str offVal := by
      rw [show cleanEntrySpec s (off.label, Val.str offVal)
          = cleanFieldValue (Val.str offVal) from if_pos hinf]
      rfl
    have h2 : lookupVal out off.label =
        if off.label ∈ fieldLabels s.fields ∧
          isBlankVal (cleanEntrySpec s (off.label, Val.str offVal)) = true
        then Option.none
        else some (cleanEntrySpec s (off.label, Val.str offVal)) := h1
    rw [hclean] at h2
    rw [if_neg (fun (hc : off.label ∈ fieldLabels s.fields ∧
        isBlankVal (Val.str offVal) = true) =>
      hoffne (by simpa [isBlankVal] using hc.2))] at h2
    exact mem_of_lookupVal h2
  · intro kv hkv hex
    obtain ⟨t, ht, htne⟩ := hex
    obtain ⟨k1, v1⟩ := kv
    have hv1 : v1 = Val.str t := ht
    rw [hv1] at hkv ⊢
    have hfk := firstKey_of_mem_nodup hek hkv
    have h1 := hlook k1
    rw [hfk] at h1
    have h2 : lookupVal out k1 =
        if k1 ∈ fieldLabels s.fields ∧
          isBlankVal (cleanEntrySpec s (k1, Val.str t)) = true
        then Option.none
        else some (cleanEntrySpec s (k1, Val.str t)) := h1
    by_cases hf : k1 ∈ fieldLabels s.fields
    · have hclean : cleanEntrySpec s (k1, Val.str t) = Val.str t := by
        rw [show cleanEntrySpec s (k1, Val.str t)
            = cleanFieldValue (Val.str t) from if_pos hf]
        rfl
      rw [hclean] at h2
      rw [if_neg (fun (hc : k1 ∈ fieldLabels s.fields ∧
          isBlankVal (Val.str t) = true) =>
        htne (by simpa [isBlankVal] using hc.2))] at h2
      exact mem_of_lookupVal h2
    · have hclean : cleanEntrySpec s (k1, Val.str t) = Val.str t := if_neg hf
      rw [hclean] at h2
      rw [if_neg (fun (hc : k1 ∈ fieldLabels s.fields ∧
          isBlankVal (Val.str t) = true) => hf hc.1)] at h2
      exact mem_of_lookupVal h2

/-- C2 witness: the amended theorem applied to the concrete Courses
Taught record whose Course Code exceeds its length bound. -/
theorem validation_failsoft_retains_offending_field_witness :
    Rule.maxLength 3 ∈ courseCodeField.rules
    ∧ 3 < "CS101X".length
    ∧ ∃ out, validate_content coursesTaughtSec courseRec = .ok out
      ∧ ruleValidate (Rule.maxLength 3) (Val.str "CS101X") courseRec
          = .ok (some "too long")
      ∧ ("Course Code", Val.str "CS101X") ∈ out
      ∧ ∀ kv ∈ courseRec, (∃ t, kv.2 = Val.str t ∧ t ≠ "") → kv ∈ out :=
  ⟨by decide, by decide,
    validation_failsoft_retains_offending_field coursesTaughtSec courseRec
      courseCodeField 3 "CS101X" (by decide) (by decide) (by decide)
      (by decide) (by decide) (by decide)
      (List.mem_cons_self _ _) (by decide)⟩

/-- The winning cluster of `Section.from_entries`: the sets entry at the
first index of the maximal match count. -/
def winningCluster (idx : List (String × List String))
    (entries : List String) : List String :=
  (clustersOf idx entries).2.getD
    ((clustersOf idx entries).1.findIdx
      (fun n => n = maxNat (clustersOf idx entries).1)) []

theorem one_lt_length_of_two_mem {l : List String} {a b : String}
    (hab : a ≠ b) (ha : a ∈ l) (hb : b ∈ l) : 1 < l.length := by
  cases l with
  | nil => simp at ha
  | cons x tl =>
    cases tl with
    | nil =>
      simp at ha hb
      exact absurd (ha.trans hb.symm) hab
    | cons y tl2 => simp [List.length_cons]

/-- C3: when the winning cluster of section inference contains two
distinct section ids, `Section.from_entries` raises a SchemaError in
strict mode and returns None in permissive mode; it never returns one of
the tied sections. -/
theorem tied_section_inference_never_picks
    (idx : List (String × List String)) (entries : List String)
    (s1 s2 : String)
    (hm : maxNat (clustersOf idx entries).1 ≠ 0)
    (h1 : s1 ∈ winningCluster idx entries)
    (h2 : s2 ∈ winningCluster idx entries)
    (h12 : s1 ≠ s2) :
    from_entries idx entries true
        = .error "Multiple sections matched with the same entries"
      ∧ from_entries idx entries false = .ok Option.none := by
  have hlen : 1 < ((clustersOf idx entries).2.getD
      ((clustersOf idx entries).1.findIdx
        (fun n => n = maxNat (clustersOf idx entries).1)) []).length :=
    one_lt_length_of_two_mem h12 h1 h2
  constructor
  · simp only [from_entries]
    rw [if_neg hm, if_pos hlen]
    simp
  · simp only [from_entries]
    rw [if_neg hm, if_pos hlen]
    simp only [Bool.false_eq_true, if_false]
    rfl

/-- C3 witness: two sections declaring the same two field names tie with
equal overlap; strict mode fails, permissive mode returns None. -/
theorem tied_section_inference_never_picks_witness :
    maxNat (clustersOf tiedIdx ["Course Code", "Course Title"]).1 ≠ 0
    ∧ "sec-a" ∈ winningCluster tiedIdx ["Course Code", "Course Title"]
    ∧ "sec-b" ∈ winningCluster tiedIdx ["Course Code", "Course Title"]
    ∧ (from_entries tiedIdx ["Course Code", "Course Title"] true
        = .error "Multiple sections matched with the same entries"
      ∧ from_entries tiedIdx ["Course Code", "Course Title"] false
        = .ok Option.none) :=
  ⟨by decide, by decide, by decide,
    tied_section_inference_never_picks tiedIdx
      ["Course Code", "Course Title"] "sec-a" "sec-b"
      (by decide) (by decide) (by decide) (by decide)⟩

/-- C5: `LOV.to_xml` puts the id of the vocabulary TABLE (`self.id`,
schema.py:485) into the `<lov>` id attribute, not the id of the entry for
the looked-up value; only the element text carries the value.  The
Undergraduate entry's own id ("...100000400", the id the repository's
test_Schema.py expects from get_lov_id) never appears. -/
theorem lov_xml_id_is_table_id :
    lovToXml courseLevelLOV (Val.str "Undergraduate")
        = .ok (Xml.elem "lov" [("id", "00000000000000000000000000000041")]
            (some "Undergraduate") [])
      ∧ lovGetValue courseLevelLOV (Val.str "Undergraduate")
          = .ok ("00000000000000000000000100000400", "Undergraduate")
      ∧ ("00000000000000000000000000000041" : String)
          ≠ "00000000000000000000000100000400" :=
  ⟨rfl, rfl, by decide⟩

/-- C7: the value stored by validated ingestion is the raw string: the
surrounding whitespace is NOT stripped (the `strip` results on
ccv.py:190,193 are discarded) and internal newlines are NOT collapsed at
ingestion (folding happens only in `Type.to_xml`). -/
theorem ingestion_stores_raw_string :
    validate_content topicSec [("Course Topic", Val.str rawTopic)]
        = .ok [("Course Topic", Val.str rawTopic)]
      ∧ pyStrip rawTopic ≠ rawTopic
      ∧ collapseNewlines rawTopic ≠ rawTopic := by
  refine ⟨?_, by decide, by decide⟩
  rw [validate_content_eq, cleanupLoop_flat _ _ _ (by decide), exceptBind_ok]
  rfl

/-- C8 counterexample: a record carrying the reserved key
"section override" keeps that key as an ordinary (unknown) entry in the
validated Record -- it is not stripped before field validation -- and
adding it to the key set leaves `Section.from_entries` unchanged, so it
never selects a target section. -/
theorem override_key_stored_counterexample :
    validate_content presSec presRec
        = .ok [("Presentation Title", Val.str "Talk"),
               ("section override", Val.str "Presentations")]
      ∧ from_entries presIdx ["Presentation Title", "section override"] true
          = from_entries presIdx ["Presentation Title"] true
      ∧ from_entries presIdx ["Presentation Title"] true
          = .ok (some "sec-pres") := by
  refine ⟨?_, rfl, rfl⟩
  rw [validate_content_eq, cleanupLoop_flat _ _ _ (by decide), exceptBind_ok]
  rfl

/-- C8 (amended): the reserved keys receive no special handling: a key
that is neither a field nor a child section of the target section is
retained in the validated Record with its raw value (after a logged
warning), and any key absent from the entries index is a no-op for the
cluster computation of section inference. -/
theorem override_keys_get_no_special_handling
    (s : Sec) (e : List (String × Val)) (k : String) (v : Val)
    (hmix : ∀ kv ∈ e, (kv.1 ∈ fieldLabels s.fields ∧ isStrVal kv.2 = true) ∨
      (kv.1 ∉ fieldLabels s.fields ∧ kv.1 ∉ subLabels s))
    (hek : (e.map (·.1)).Nodup)
    (hfl : (fieldLabels s.fields).Nodup)
    (hsafe : ∀ f ∈ s.fields, ∀ r ∈ f.rules, safeRule r = true)
    (hk1 : k ∉ fieldLabels s.fields)
    (hkv : (k, v) ∈ e) :
    (∃ out, validate_content s e = .ok out ∧ (k, v) ∈ out)
      ∧ ∀ (idx : List (String × List String))
          (st : List Nat × List (List String)),
          idx.lookup k = Option.none → clStep idx st k = st := by
  obtain ⟨out, hok, hlook⟩ := validate_content_flat s e hmix hek hfl hsafe
  constructor
  · refine ⟨out, hok, ?_⟩
    have hfk := firstKey_of_mem_nodup hek hkv
    have h1 := hlook k
    rw [hfk] at h1
    have h2 : lookupVal out k =
        if k ∈ fieldLabels s.fields ∧
          isBlankVal (cleanEntrySpec s (k, v)) = true
        then Option.none
        else some (cleanEntrySpec s (k, v)) := h1
    have hclean : cleanEntrySpec s (k, v) = v := if_neg hk1
    rw [hclean] at h2
    rw [if_neg (fun (hc : k ∈ fieldLabels s.fields ∧ isBlankVal v = true) =>
      hk1 hc.1)] at h2
    exact mem_of_lookupVal h2
  · intro idx st h
    unfold clStep
    rw [h]

/-- C8 witness: the amended theorem at the concrete Presentations record
with the reserved key "section override". -/
theorem override_keys_get_no_special_handling_witness :
    ("section override" ∉ fieldLabels presSec.fields)
    ∧ (("section override",
        Val.str "Presentations") ∈ presRec)
    ∧ ((∃ out, validate_content presSec presRec = .ok out ∧
        ("section override", Val.str "Presentations") ∈ out)
      ∧ ∀ (idx : List (String × List String))
          (st : List Nat × List (List String)),
          idx.lookup "section override" = Option.none →
          clStep idx st "section override" = st) :=
  ⟨by decide, List.mem_cons_of_mem _ (List.mem_cons_self _ _),
    override_keys_get_no_special_handling presSec presRec
      "section override" (Val.str "Presentations")
      (by decide) (by decide) (by decide) (by decide) (by decide)
      (List.mem_cons_of_mem _ (List.mem_cons_self _ _))⟩

/-- C9: exporting the whole document -- `CCV.to_xml(path)` or
`CCV.to_yaml(path)` with no section arguments, or `CCV.get_content` --
always raises NameError, because each of these code paths evaluates the
name `Root` (ccv.py:285, 514, 539), which is bound nowhere in ccv.py's
scope. -/
theorem whole_document_export_raises_nameerror (path : String) (sArg : Sec) :
    ccvToXmlWholeDoc path = .error (.nameError "Root")
      ∧ ccvToYamlWholeDoc path = .error (.nameError "Root")
      ∧ ccvGetContent sArg = .error (.nameError "Root") :=
  ⟨rfl, rfl, rfl⟩

/-- C10: for a rule of kind 24 (mutual exclusivity), when both the
validated value and the referenced sibling value are non-empty,
`Rule.validate` raises NameError -- its diagnostic line (schema.py:1123)
formats through the unbound name `msg` -- so `Field.validate` propagates
the exception and ingestion of such a record aborts instead of failing
soft. -/
theorem rule24_mutual_exclusivity_raises_nameerror
    (fld : String) (value other : Val) (entries : Dict)
    (hget : lookupVal entries fld = some other)
    (hlo : ∃ nn, pyLen other = .ok nn ∧ 0 < nn)
    (hlv : ∃ m, pyLen value = .ok m ∧ 0 < m) :
    ruleValidate (Rule.mutuallyExclusive fld) value entries
        = .error (.nameError "msg")
      ∧ (∀ fid flb ftyp : String,
          fieldValidate ⟨fid, flb, ftyp, Option.none, Option.none,
            [Rule.mutuallyExclusive fld]⟩ value entries
          = .error (.nameError "msg"))
      ∧ validate_content fundingSec fundingRec = .error (.nameError "msg") := by
  obtain ⟨nn, hn, hnpos⟩ := hlo
  obtain ⟨m, hm, hmpos⟩ := hlv
  have hrule : ruleValidate (Rule.mutuallyExclusive fld) value entries
      = .error (.nameError "msg") := by
    show (do
      let other2 ← entriesGet entries fld
      let lo ← pyLen other2
      if 0 < lo then do
        let lv ← pyLen value
        if 0 < lv then do
          let _ ← resolvePyName ruleValidateScope "msg"
          pure (some "unreachable: msg is unbound at schema.py:1123")
        else
          pure Option.none
      else
        pure Option.none : Except PyErr (Option String))
      = .error (.nameError "msg")
    rw [show entriesGet entries fld = pure other from by
        rw [entriesGet, hget],
      exceptBind_pure, hn, exceptBind_ok, if_pos hnpos, hm, exceptBind_ok,
      if_pos hmpos,
      show resolvePyName ruleValidateScope "msg"
          = .error (.nameError "msg") from by
        rw [resolvePyName, if_neg (by decide)]]
    rfl
  refine ⟨hrule, ?_, ?_⟩
  · intro fid flb ftyp
    show (do
      let msgs ← msgsLoop value entries [Rule.mutuallyExclusive fld]
      pure (if msgs.isEmpty then Option.none
        else some (String.intercalate "; " msgs))
      : Except PyErr (Option String)) = .error (.nameError "msg")
    rw [show msgsLoop value entries [Rule.mutuallyExclusive fld]
        = .error (.nameError "msg") from by
      show (do
        let m2 ← ruleValidate (Rule.mutuallyExclusive fld) value entries
        let rest ← msgsLoop value entries []
        pure (match m2 with | some s2 => s2 :: rest | Option.none => rest)
        : Except PyErr (List String)) = .error (.nameError "msg")
      rw [hrule]
      rfl]
    rfl
  · rw [validate_content_eq, cleanupLoop_flat _ _ _ (by decide), exceptBind_ok]
    rfl

/-- C10 witness: the theorem at a concrete mutually-exclusive pair with
both fields filled in. -/
theorem rule24_mutual_exclusivity_raises_nameerror_witness :
    lookupVal fundingRec "Funding Number" = some (Val.str "123")
    ∧ (ruleValidate (Rule.mutuallyExclusive "Funding Number")
          (Val.str "Grant") fundingRec = .error (.nameError "msg")
      ∧ (∀ fid flb ftyp : String,
          fieldValidate ⟨fid, flb, ftyp, Option.none, Option.none,
            [Rule.mutuallyExclusive "Funding Number"]⟩
            (Val.str "Grant") fundingRec
          = .error (.nameError "msg"))
      ∧ validate_content fundingSec fundingRec
          = .error (.nameError "msg")) :=
  ⟨rfl,
    rule24_mutual_exclusivity_raises_nameerror "Funding Number"
      (Val.str "Grant") (Val.str "123") fundingRec rfl
      ⟨3, rfl, by decide⟩ ⟨5, rfl, by decide⟩⟩

/-
C1, C4, C6: reference tables and the XML emit/import pair.
-/

def orgEnv : RefEnv :=
  ⟨[("Country", "00000000000000000000000000002000"),
    ("Province", "00000000000000000000000000002001")], []⟩

def orgTable : RefTable :=
  ⟨"ee597e9073b6479b94f903ca08f81903", "Organization",
    [("00000000000000000000006544937977", "Dalhousie University")],
    [("-1", "Country (List Of Values)"), ("-1", "Province (List Of Values)"),
     ("100", "Canada"), ("101", "Nova Scotia")],
    [("00000000000000000000006544937977", ["100", "101"])]⟩

def orgField : FieldS :=
  ⟨"8280ef884eec43938a1aa4f7173a501e", "Organization", "Reference",
    Option.none, some orgTable, []⟩

def dalRefValue : RefValue :=
  ⟨"00000000000000000000006544937977", "Dalhousie University",
    ["00000000000000000000000000002000", "00000000000000000000000000002001",
     "ee597e9073b6479b94f903ca08f81903"],
    ["Canada", "Nova Scotia"]⟩

def dalChainXml : Xml :=
  Xml.elem "refTable" [("refValueId", "00000000000000000000006544937977")]
    Option.none
    [mkLinkedWith "Canada" "00000000000000000000000000002000",
     mkLinkedWith "Nova Scotia" "00000000000000000000000000002001",
     mkLinkedWith "Dalhousie University" "ee597e9073b6479b94f903ca08f81903"]

def projDescField : FieldS :=
  ⟨"fld-proj-desc", "Project Description", "Bilingual", Option.none,
    Option.none, []⟩

def projDescVal : Val :=
  .vdict [("english", Val.str "A long and interesting project."),
          ("french", Val.str "")]

def projDescXml : Xml :=
  .elem "field" [("id", "fld-proj-desc"), ("label", "Project Description")]
    Option.none
    [.elem "value" [("type", "Bilingual")] Option.none
      [.elem "english" [] (some "A long and interesting project.") [],
       .elem "french" [] (some "") []]]

theorem parseFieldValue_bilingual_single (env : RefEnv) (f : FieldS)
    (hb : f.typeLabel = "Bilingual") (tag : String)
    (attrs : List (String × String)) (txt : Option String) (inner : Xml) :
    parseFieldValue env f (Xml.elem tag attrs txt [inner])
      = .error PyErr.indexError := by
  obtain ⟨fid, flb, ftyp, flov, fref, frules⟩ := f
  have hb2 : ftyp = "Bilingual" := hb
  subst hb2
  rfl

/-- C1: the emitter writes exactly one child under a `<field>` element
(Field.to_xml, schema.py:915-925), but the importer's Bilingual branch
reads `xml_children[1]` (ccv.py:110-112), so re-importing the tool's own
XML raises IndexError for every Bilingual field.  The round-trip
equalities of the claim therefore cannot hold on any Record containing a
Bilingual field. -/
theorem bilingual_field_reimport_raises (env : RefEnv) (lang : String)
    (f : FieldS) (v : Val) (x : Xml)
    (hb : f.typeLabel = "Bilingual")
    (hemit : fieldToXml env lang f v = .ok x) :
    parseFieldValue env f x = .error PyErr.indexError := by
  obtain ⟨fid, flb, ftyp, flov, fref, frules⟩ := f
  have hb2 : ftyp = "Bilingual" := hb
  subst hb2
  cases ht : typeToXml lang "Bilingual" v with
  | error e2 =>
    have herr : fieldToXml env lang
        ⟨fid, flb, "Bilingual", flov, fref, frules⟩ v = .error e2 := by
      show (do
        let inner ← typeToXml lang "Bilingual" v
        pure (Xml.elem "field" [("id", fid), ("label", flb)] Option.none
          [inner]) : Except PyErr Xml) = .error e2
      rw [ht]
      rfl
    rw [herr] at hemit
    exact absurd hemit (by simp)
  | ok inner =>
    have hok : fieldToXml env lang
        ⟨fid, flb, "Bilingual", flov, fref, frules⟩ v
        = .ok (Xml.elem "field" [("id", fid), ("label", flb)] Option.none
          [inner]) := by
      show (do
        let inner2 ← typeToXml lang "Bilingual" v
        pure (Xml.elem "field" [("id", fid), ("label", flb)] Option.none
          [inner2]) : Except PyErr Xml) = _
      rw [ht]
      rfl
    rw [hok] at hemit
    have hx : x = Xml.elem "field" [("id", fid), ("label", flb)] Option.none
        [inner] := (Except.ok.inj hemit).symm
    subst hx
    exact parseFieldValue_bilingual_single env
      ⟨fid, flb, "Bilingual", flov, fref, frules⟩ rfl _ _ _ _

/-- C1 witness: the repository's own test data ("Project Description", a
Bilingual field) emitted and re-imported. -/
theorem bilingual_field_reimport_raises_witness :
    projDescField.typeLabel = "Bilingual"
    ∧ fieldToXml orgEnv "english" projDescField projDescVal = .ok projDescXml
    ∧ parseFieldValue orgEnv projDescField projDescXml
        = .error PyErr.indexError :=
  ⟨rfl, rfl,
    bilingual_field_reimport_raises orgEnv "english" projDescField
      projDescVal projDescXml rfl rfl⟩

/-- C4: for a reference table whose classification header declares k
ancestor levels (k leading rows with id `-1`), emitting any resolvable
leaf value yields a `refTable` element with exactly k+1 `linkedWith`
children, whose `refOrLovId` attributes are the resolved ancestor ids in
the header's (outermost-first) order followed by the leaf table's own id,
and whose `value` attributes are the metadata labels followed by the leaf
label. -/
theorem reference_chain_k_plus_one
    (env : RefEnv) (t : RefTable) (lbl : String) (k : Nat)
    (ancs : List String) (rv : RefValue)
    (hk : (tableHeaders t).length = k)
    (hres : mapE (resolveHeader env) (tableHeaders t) = .ok ancs)
    (hrows : ∀ r ∈ t.tableFields, r.2.length = k)
    (hval : refGetValue env t (Val.str lbl) = .ok rv) :
    ∃ links, refToXml env t (Val.str lbl)
        = .ok (Xml.elem "refTable" [("refValueId", rv.id)] Option.none links)
      ∧ links.length = k + 1
      ∧ links.map (fun x => x.attr "refOrLovId") = (ancs ++ [t.id]).map some
      ∧ links.map (fun x => x.attr "value")
          = (rv.values ++ [rv.label]).map some := by
  have hancs : ancs.length = k := (mapE_ok_length hres).trans hk
  have htids : tableIds env t = .ok (ancs ++ [t.id]) := by
    show (do
      let ids ← mapE (resolveHeader env) (tableHeaders t)
      pure (ids ++ [t.id]) : Except PyErr (List String)) = _
    rw [hres]
    rfl
  -- invert refGetValue to learn the shape of rv
  have hval2 : (do
      let vl ← valuesListE env t
      (match vl.reverse.find? (fun rv2 => rv2.label == lbl) with
        | some rv2 => pure rv2
        | Option.none =>
          .error (.schemaError ("not a valid value for " ++ t.label)))
      : Except PyErr RefValue) = .ok rv := hval
  obtain ⟨vl, hvl, hrvmem⟩ : ∃ vl, valuesListE env t = .ok vl ∧ rv ∈ vl := by
    cases hvl : valuesListE env t with
    | error e =>
      rw [hvl] at hval2
      exact absurd ((rfl : (Except.error e : Except PyErr RefValue)
        = Except.error e).symm.trans hval2) (by simp)
    | ok vl =>
      rw [hvl, exceptBind_ok] at hval2
      cases hfind : vl.reverse.find? (fun rv2 => rv2.label == lbl) with
      | none =>
        rw [hfind] at hval2
        exact absurd hval2 (by simp)
      | some rv2 =>
        rw [hfind] at hval2
        have : rv2 = rv := Except.ok.inj hval2
        subst this
        exact ⟨vl, rfl, List.mem_reverse.mp
          (List.mem_of_find?_eq_some hfind)⟩
  have hvl2 : mapE (fun (row : String × List String) => do
      let labels ← mapE (fun cid =>
          match t.tableValues.lookup cid with
          | some lbl2 => pure lbl2
          | Option.none => .error (.keyError cid)) row.2
      match t.refValues.lookup row.1 with
        | some lbl2 =>
          (pure (RefValue.mk row.1 lbl2 (ancs ++ [t.id]) labels)
            : Except PyErr RefValue)
        | Option.none => .error (.keyError row.1)) t.tableFields
      = .ok vl := by
    have h0 : (do
        let ids ← tableIds env t
        mapE (fun (row : String × List String) => do
          let labels ← mapE (fun cid =>
              match t.tableValues.lookup cid with
              | some lbl2 => pure lbl2
              | Option.none => .error (.keyError cid)) row.2
          (match t.refValues.lookup row.1 with
            | some lbl2 => pure (RefValue.mk row.1 lbl2 ids labels)
            | Option.none => .error (.keyError row.1)))
          t.tableFields : Except PyErr (List RefValue)) = .ok vl := hvl
    rw [htids, exceptBind_ok] at h0
    exact h0
  obtain ⟨row, hrowmem, hrow⟩ := mapE_ok_mem hvl2 rv hrvmem
  obtain ⟨hids, hvals⟩ : rv.ids = ancs ++ [t.id] ∧ rv.values.length = k := by
    cases hlab : mapE (fun cid =>
        match t.tableValues.lookup cid with
        | some lbl2 => pure lbl2
        | Option.none => .error (.keyError cid)) row.2 with
    | error e =>
      rw [hlab] at hrow
      exact absurd hrow (by simp [Bind.bind, Except.bind])
    | ok labels =>
      rw [hlab, exceptBind_ok] at hrow
      cases hlk : t.refValues.lookup row.1 with
      | none =>
        rw [hlk] at hrow
        exact absurd hrow (by simp)
      | some lbl2 =>
        rw [hlk] at hrow
        have : RefValue.mk row.1 lbl2 (ancs ++ [t.id]) labels = rv :=
          Except.ok.inj hrow
        rw [← this]
        exact ⟨rfl, (mapE_ok_length hlab).trans (hrows row hrowmem)⟩
  have hlen1 : rv.ids.length = k + 1 := by
    rw [hids]
    simp [hancs]
  have hvalslen : (rv.values ++ [rv.label]).length = rv.ids.length := by
    simp [hvals, hlen1]
  have hmape := mapE_idx_zip rv.ids (rv.values ++ [rv.label]) hvalslen
  refine ⟨((rv.values ++ [rv.label]).zip rv.ids).map
    (fun p => mkLinkedWith p.1 p.2), ?_, ?_, ?_, ?_⟩
  · show (do
      let rv2 ← refGetValue env t (Val.str lbl)
      let links ← mapE (fun i => do
          let vi ← listIdx (rv2.values ++ [rv2.label]) i
          let ti ← listIdx rv2.ids i
          pure (mkLinkedWith vi ti))
        (List.range rv2.ids.length)
      pure (Xml.elem "refTable" [("refValueId", rv2.id)] Option.none links)
      : Except PyErr Xml) = _
    rw [hval, exceptBind_ok, hmape, exceptBind_ok]
    rfl
  · rw [List.length_map, List.length_zip, hvalslen, hlen1]
    simp
  · rw [List.map_map,
      show (fun x => Xml.attr x "refOrLovId") ∘
          (fun p : String × String => mkLinkedWith p.1 p.2)
        = fun p : String × String => some p.2 from funext (fun p => rfl),
      show (fun p : String × String => some p.2)
        = some ∘ (fun p : String × String => p.2) from rfl,
      ← List.map_map, List.map_snd_zip _ _ (le_of_eq hvalslen.symm), hids]
  · rw [List.map_map,
      show (fun x => Xml.attr x "value") ∘
          (fun p : String × String => mkLinkedWith p.1 p.2)
        = fun p : String × String => some p.1 from funext (fun p => rfl),
      show (fun p : String × String => some p.1)
        = some ∘ (fun p : String × String => p.1) from rfl,
      ← List.map_map, List.map_fst_zip _ _ (le_of_eq hvalslen)]

/-- C4 witness: the Organization table with two classification levels
(Country, Province) and leaf value Dalhousie University: three
`linkedWith` entries, outermost first, leaf table last. -/
theorem reference_chain_k_plus_one_witness :
    (tableHeaders orgTable).length = 2
    ∧ mapE (resolveHeader orgEnv) (tableHeaders orgTable)
        = .ok ["00000000000000000000000000002000",
               "00000000000000000000000000002001"]
    ∧ refGetValue orgEnv orgTable (Val.str "Dalhousie University")
        = .ok dalRefValue
    ∧ ∃ links, refToXml orgEnv orgTable (Val.str "Dalhousie University")
        = .ok (Xml.elem "refTable" [("refValueId", dalRefValue.id)]
            Option.none links)
      ∧ links.length = 2 + 1
      ∧ links.map (fun x => x.attr "refOrLovId")
          = (["00000000000000000000000000002000",
              "00000000000000000000000000002001"] ++ [orgTable.id]).map some
      ∧ links.map (fun x => x.attr "value")
          = (dalRefValue.values ++ [dalRefValue.label]).map some :=
  ⟨rfl, rfl, rfl,
    reference_chain_k_plus_one orgEnv orgTable "Dalhousie University" 2
      ["00000000000000000000000000002000",
       "00000000000000000000000000002001"] dalRefValue
      rfl rfl (by decide) rfl⟩

/-- C6 counterexample: on the tool's own generated XML, `CCV.parse_xml`
recovers the field value from the LAST `linkedWith` (`getchildren()[-1]`,
ccv.py:106), whose value attribute is the leaf label; the OUTERMOST
`linkedWith` carries "Canada", and resolving it would fail -- so the
importer cannot be reading the outermost element as the claim states. -/
theorem reference_import_counterexample :
    refToXml orgEnv orgTable (Val.str "Dalhousie University")
        = .ok dalChainXml
      ∧ (dalChainXml.children.head?.map (fun l => l.attr "value"))
          = some (some "Canada")
      ∧ (dalChainXml.children.getLast?.map (fun l => l.attr "value"))
          = some (some "Dalhousie University")
      ∧ parseFieldValue orgEnv orgField
          (Xml.elem "field" [("id", orgField.id), ("label", "Organization")]
            Option.none [dalChainXml])
        = .ok (some (Val.str "Dalhousie University"))
      ∧ refGetValue orgEnv orgTable (Val.str "Canada")
          = .error (.schemaError "not a valid value for Organization")
      ∧ ("Dalhousie University" : String) ≠ "Canada" :=
  ⟨rfl, rfl, rfl, rfl, rfl, by decide⟩

/-- C6 (amended): when reconstructing a Record from XML, the importer
reads a Reference field's value from the LAST (innermost, leaf-level)
`linkedWith` element's value attribute and resolves it through the
field's reference table. -/
theorem reference_import_reads_last_linkedwith
    (env : RefEnv) (f : FieldS) (t : RefTable) (fx c0 : Xml)
    (rest : List Xml) (lnk : Xml) (a : String)
    (htype : f.typeLabel = "Reference")
    (href : f.ref = some t)
    (hch : fx.children = c0 :: rest)
    (hlast : c0.children.getLast? = some lnk)
    (hattr : lnk.attr "value" = some a) :
    parseFieldValue env f fx =
      (do
        let rv ← refGetValue env t (Val.str a)
        pure (some (Val.str rv.label))) := by
  obtain ⟨fid, flb, ftyp, flov, fref, frules⟩ := f
  have htype2 : ftyp = "Reference" := htype
  subst htype2
  have href2 : fref = some t := href
  subst href2
  obtain ⟨tg, ats, tx, ch⟩ := fx
  have hch2 : ch = c0 :: rest := hch
  subst hch2
  obtain ⟨ct, ca, cx, cch⟩ := c0
  have hlast2 : cch.getLast? = some lnk := hlast
  have hlk : listLast cch = pure lnk := by
    simp only [listLast, hlast2]
  simp only [parseFieldValue, Xml.children, if_true]
  rw [hlk, exceptBind_pure, exceptBind_pure, hattr]

/-- C6 witness: the amended theorem at the generated Organization chain;
the recovered value is the leaf label carried by the last `linkedWith`. -/
theorem reference_import_reads_last_linkedwith_witness :
    orgField.typeLabel = "Reference"
    ∧ orgField.ref = some orgTable
    ∧ (Xml.elem "field" [("id", orgField.id), ("label", "Organization")]
        Option.none [dalChainXml]).children = dalChainXml :: []
    ∧ dalChainXml.children.getLast?
        = some (mkLinkedWith "Dalhousie University"
            "ee597e9073b6479b94f903ca08f81903")
    ∧ (mkLinkedWith "Dalhousie University"
        "ee597e9073b6479b94f903ca08f81903").attr "value"
        = some "Dalhousie University"
    ∧ parseFieldValue orgEnv orgField
        (Xml.elem "field" [("id", orgField.id), ("label", "Organization")]
          Option.none [dalChainXml]) =
      (do
        let rv ← refGetValue orgEnv orgTable (Val.str "Dalhousie University")
        pure (some (Val.str rv.label))) :=
  ⟨rfl, rfl, rfl, rfl, rfl,
    reference_import_reads_last_linkedwith orgEnv orgField orgTable
      (Xml.elem "field" [("id", orgField.id), ("label", "Organization")]
        Option.none [dalChainXml])
      dalChainXml [] (mkLinkedWith "Dalhousie University"
        "ee597e9073b6479b94f903ca08f81903") "Dalhousie University"
      rfl rfl rfl rfl rfl⟩

end Canadianccv
